import Mathlib

/-!
Verification of the line tokenizer and auxiliary text transforms of
`src/utils/Utils.js` (class `Utils`). JavaScript strings are modelled as
`List Char`; the JS functions are translated operation by operation:
`String.prototype.indexOf(c, pos)` as `indexOfFrom`, `lastIndexOf` as
`lastIndexOfChar`, `jsSlice(a, b)` / `substring(a, b)` (with `0 ≤ a ≤ b`,
the only shapes used) as `jsSlice`, `split(c)` as `splitOnChar`,
`toLowerCase` as a character map, `parseInt` as `jsParseInt`, and dynamic
object assignment `obj[k] = v` as the overwrite-or-append `jsSet`.
-/

/-- First index of character `c` in `l`, as JS `indexOf` on the suffix. -/
def firstIdx (c : Char) : List Char → Option Nat
  | [] => none
  | x :: xs => if x = c then some 0 else (firstIdx c xs).map (· + 1)

/-- JS `data.indexOf(c, pos)`: first index `≥ pos` holding `c`, `none` for `-1`. -/
def indexOfFrom (data : List Char) (c : Char) (pos : Nat) : Option Nat :=
  (firstIdx c (data.drop pos)).map (· + pos)

/-- JS `l.lastIndexOf(c)`: last index holding `c`, `none` for `-1`. -/
def lastIndexOfChar (l : List Char) (c : Char) : Option Nat :=
  (firstIdx c l.reverse).map (fun i => l.length - 1 - i)

/-- JS `data.slice(a, b)` (also `substring(a, b)`) for `0 ≤ a ≤ b`. -/
def jsSlice (data : List Char) (a b : Nat) : List Char :=
  (data.take b).drop a

/-- The `while (data.charCodeAt(position) === 32) position++;` loops of
`unpack`: the first position `≥ pos` not holding a space. -/
def skipSpaces (data : List Char) (pos : Nat) : Nat :=
  pos + ((data.drop pos).takeWhile (· = ' ')).length

/-- JS `String.prototype.split` on a one-character separator: `""` splits
to `[""]`, and separators at the ends produce empty pieces. -/
def splitOnChar (c : Char) : List Char → List (List Char)
  | [] => [[]]
  | x :: xs =>
    if x = c then [] :: splitOnChar c xs
    else
      match splitOnChar c xs with
      | [] => [[x]]
      | y :: ys => (x :: y) :: ys

/-- JS dynamic-object assignment `obj[k] = v`: overwrite the value when the
key is present (keeping its insertion position), append otherwise. -/
def jsSet {β : Type} (m : List (List Char × β)) (k : List Char) (v : β) :
    List (List Char × β) :=
  if m.any (fun p => p.1 = k) then m.map (fun p => if p.1 = k then (k, v) else p)
  else m ++ [(k, v)]

/-- A tag value of `unpack`: `message.tags[pair[0]] = pair[1] || true;`
stores either the string `pair[1]` or the boolean sentinel `true`. -/
inductive TagValue : Type
  | flag : TagValue
  | text : List Char → TagValue
deriving DecidableEq

/-- The value stored for a raw tag entry, from the JS truthiness of
`pair[1] || true`: `undefined` (no second piece) and `""` both give the
boolean sentinel. -/
def tagValueOf : Option (List Char) → TagValue
  | none => TagValue.flag
  | some v => if v.isEmpty then TagValue.flag else TagValue.text v

/-- One iteration of the tag loop of `unpack`:
`const pair = tag.split('='); message.tags[pair[0]] = pair[1] || true;`. -/
def tagPair (tag : List Char) : List Char × TagValue :=
  let pair := splitOnChar '=' tag
  (pair.headD [], tagValueOf pair[1]?)

/-- The tag loop of `unpack` over the raw `;`-separated tag entries. -/
def tagsOf (rawTags : List (List Char)) : List (List Char × TagValue) :=
  rawTags.foldl (fun m tag => jsSet m (tagPair tag).1 (tagPair tag).2) []

/-- The result record of `unpack`: `raw`, `tags`, the origin field (named
`prefix` in the JS source, a Lean keyword here), `command`, `params`. -/
structure IrcMessage : Type where
  raw : List Char
  tags : List (List Char × TagValue)
  origin : Option (List Char)
  command : Option (List Char)
  params : List (List Char)
deriving DecidableEq

/-- Stage 1 of `unpack` (lines 34-59 of Utils.js): the optional `@`-tag
block, then the space-skip loop. Returns the tags and the cursor, `none`
for the malformed `return null` (an `@` line with no space). -/
def parseTags (data : List Char) : Option (List (List Char × TagValue) × Nat) :=
  if data[0]? = some '@' then
    match indexOfFrom data ' ' 0 with
    | none => none
    | some ns => some (tagsOf (splitOnChar ';' (jsSlice data 1 ns)), skipSpaces data (ns + 1))
  else some ([], skipSpaces data 0)

/-- Stage 2 of `unpack` (lines 64-81): the optional `:`-origin block and
the following space-skip. Returns the origin and the cursor, `none` for
the malformed `return null` (a `:` block with no closing space). -/
def parseOrigin (data : List Char) (pos : Nat) : Option (Option (List Char) × Nat) :=
  if data[pos]? = some ':' then
    match indexOfFrom data ' ' pos with
    | none => none
    | some ns => some (some (jsSlice data (pos + 1) ns), skipSpaces data (ns + 1))
  else some (none, pos)

/-- The `while (position < data.length)` params loop of `unpack`
(lines 107-140), fuelled: each iteration either terminates (a `:` trailing
parameter, or no space remaining) or advances the cursor past the next
space and its trailing space-run. `data.length - pos` iterations always
suffice, see `paramsLoop`. -/
def paramsLoopAux (data : List Char) : Nat → Nat → List (List Char) → List (List Char)
  | 0, _, params => params
  | fuel + 1, pos, params =>
    if pos < data.length then
      if data[pos]? = some ':' then params ++ [data.drop (pos + 1)]
      else
        match indexOfFrom data ' ' pos with
        | some ns => paramsLoopAux data fuel (skipSpaces data (ns + 1)) (params ++ [jsSlice data pos ns])
        | none => params ++ [data.drop pos]
    else params

/-- The params loop of `unpack`, started on an empty `params` array. -/
def paramsLoop (data : List Char) (pos : Nat) : List (List Char) :=
  paramsLoopAux data (data.length - pos) pos []

/-- `Utils.unpack` (lines 18-143 of Utils.js): tags stage, origin stage,
command extraction, params loop. `none` models the `return null` of the
three malformed cases. -/
def unpack (data : List Char) : Option IrcMessage :=
  match parseTags data with
  | none => none
  | some (tags, pos1) =>
    match parseOrigin data pos1 with
    | none => none
    | some (pfx, pos2) =>
      match indexOfFrom data ' ' pos2 with
      | none =>
        if pos2 < data.length then
          some { raw := data, tags := tags, origin := pfx,
                 command := some (data.drop pos2), params := [] }
        else none
      | some ns =>
        some { raw := data, tags := tags, origin := pfx,
               command := some (jsSlice data pos2 ns),
               params := paramsLoop data (skipSpaces data (ns + 1)) }

/-- The per-character effect of JS `toLowerCase` on the inputs at hand:
ASCII upper-case letters gain 32, everything else is unchanged. -/
def jsLowerChar (c : Char) : Char :=
  if 65 ≤ c.toNat ∧ c.toNat ≤ 90 then Char.ofNat (c.toNat + 32) else c

/-- JS `str.toLowerCase()`. -/
def jsToLower (l : List Char) : List Char :=
  l.map jsLowerChar

/-- `Utils.properChannel` (lines 149-152). For a string argument the JS
guard `(str ? str : '')` is the identity: the only falsy string is `""`,
which the guard maps to `""` itself. -/
def properChannel (str : List Char) : List Char :=
  let channel := jsToLower str
  if channel.head? = some '#' then channel else '#' :: channel

/-- `Utils.properUsername` (lines 158-161), with the same remark on the
falsy-string guard. -/
def properUsername (str : List Char) : List Char :=
  let username := jsToLower str
  if username.head? = some '#' then username.tail else username

/-- `Utils.splitLine` (lines 268-272). The JS `lastSpace` ranges over
`-1, 0, 1, ...` and is modelled as an `Int`, so that the `-1` case of
`lastIndexOf` followed by `len - 1` and the `substring` clampings behave
exactly as in JS. -/
def splitLine (str : List Char) (len : Nat) : List Char × List Char :=
  let lastSpace : Int :=
    match lastIndexOfChar (str.take len) ' ' with
    | none => (len : Int) - 1
    | some i => (i : Int)
  (str.take lastSpace.toNat, str.drop (lastSpace + 1).toNat)

/-- JS whitespace characters stripped by `parseInt` before parsing. -/
def jsWhitespace (c : Char) : Bool :=
  c = ' ' || c = '\t' || c = '\n' || c = '\r' || c = '\x0b' || c = '\x0c'

/-- Sign handling of `parseInt`: an optional leading `-` or `+`. -/
def signSplit (l : List Char) : Bool × List Char :=
  match l with
  | '-' :: r => (true, r)
  | '+' :: r => (false, r)
  | r => (false, r)

/-- Radix detection of `parseInt` with no radix argument: a leading
`0x` or `0X` selects base 16, anything else base 10. -/
def baseSplit (l : List Char) : Nat × List Char :=
  match l with
  | '0' :: 'x' :: r => (16, r)
  | '0' :: 'X' :: r => (16, r)
  | _ => (10, l)

/-- Digit value of `c` in the given base, `none` when `c` is no digit. -/
def digitVal? (base : Nat) (c : Char) : Option Nat :=
  let n := c.toNat
  let v := if 48 ≤ n ∧ n ≤ 57 then some (n - 48)
           else if 97 ≤ n ∧ n ≤ 102 then some (n - 87)
           else if 65 ≤ n ∧ n ≤ 70 then some (n - 55)
           else none
  match v with
  | some d => if d < base then some d else none
  | none => none

/-- Horner evaluation of a digit list. -/
def digitsToNat (base : Nat) (ds : List Nat) : Nat :=
  ds.foldl (fun a d => a * base + d) 0

/-- JS `parseInt(s)` on a string: strip leading whitespace, read an
optional sign and an optional `0x` radix mark, then the longest prefix of
digits; no digit at all is `NaN`, modelled as `none`. -/
def jsParseInt (l : List Char) : Option Int :=
  let l1 := l.dropWhile jsWhitespace
  let s := signSplit l1
  let b := baseSplit s.2
  let ds := (b.2.takeWhile (fun c => (digitVal? b.1 c).isSome)).map
    (fun c => (digitVal? b.1 c).getD 0)
  if ds.isEmpty then none
  else some ((if s.1 then (-1 : Int) else 1) * (digitsToNat b.1 ds : Int))

/-- Whether `parseInt` would find at least one digit: after the leading
whitespace and the optional sign, the next character is a decimal digit.
`0x` inputs begin with the digit `0`, so they are covered as well. -/
def numericStart (l : List Char) : Bool :=
  match (signSplit (l.dropWhile jsWhitespace)).2 with
  | [] => false
  | c :: _ => decide (48 ≤ c.toNat ∧ c.toNat ≤ 57)

/-- `parseInt(resolved[1])` where `resolved[1]` may be `undefined`:
`parseInt(undefined)` is `NaN`, modelled as `none`. -/
def jsParseIntOpt : Option (List Char) → Option Int
  | none => none
  | some l => jsParseInt l

/-- One iteration of the `Utils.badgesResolver` loop (lines 282-285):
`const resolved = badge.split('/'); obj[resolved[0]] = parseInt(resolved[1]);`. -/
def resolveBadge (badge : List Char) : List Char × Option Int :=
  let resolved := splitOnChar '/' badge
  (resolved.headD [], jsParseIntOpt resolved[1]?)

/-- `Utils.badgesResolver` (lines 279-287): split on `,`, resolve each
badge entry into the object. -/
def badgesResolver (badgesString : List Char) : List (List Char × Option Int) :=
  (splitOnChar ',' badgesString).foldl
    (fun obj badge => jsSet obj (resolveBadge badge).1 (resolveBadge badge).2) []

/-- No space character at any index `≥ pos` of `data`. -/
def noSpaceFrom (data : List Char) (pos : Nat) : Bool :=
  (data.drop pos).all (· != ' ')

/-- Cursor position after the tag stage of `unpack` (tag block and
space-skip), `none` when that stage already fails. -/
def afterTagsPos (data : List Char) : Option Nat :=
  (parseTags data).map (·.2)

/-- Cursor position after the origin stage of `unpack`, `none` when the
tag or origin stage fails. -/
def afterOriginPos (data : List Char) : Option Nat :=
  match afterTagsPos data with
  | none => none
  | some p => (parseOrigin data p).map (·.2)

/-- Failure cause 1 of `unpack`: a line opening an `@` tag block with no
space anywhere (lines 34-40 of Utils.js). -/
def untermTagBlock (data : List Char) : Bool :=
  decide (data[0]? = some '@') && noSpaceFrom data 0

/-- Failure cause 2 of `unpack`: a `:` origin block at the cursor with no
space at or after it (lines 64-72 of Utils.js). -/
def untermOrigin (data : List Char) : Bool :=
  match afterTagsPos data with
  | none => false
  | some p => decide (data[p]? = some ':') && noSpaceFrom data p

/-- Failure cause 3 of `unpack`: no space and no character left at the
cursor where the command should start (lines 87-93 of Utils.js). -/
def missingCommand (data : List Char) : Bool :=
  match afterOriginPos data with
  | none => false
  | some p => noSpaceFrom data p && decide (data.length ≤ p)

/-! ### Lemmas on the string primitives -/

theorem firstIdx_eq_none_iff (c : Char) (l : List Char) :
    firstIdx c l = none ↔ c ∉ l := by
  induction l with
  | nil => simp [firstIdx]
  | cons x xs ih =>
    by_cases hx : x = c
    · simp [firstIdx, hx]
    · simp [firstIdx, hx, ih, Ne.symm hx]

theorem firstIdx_some (c : Char) (l : List Char) (i : Nat)
    (h : firstIdx c l = some i) :
    i < l.length ∧ l[i]? = some c ∧ ∀ j, j < i → l[j]? ≠ some c := by
  induction l generalizing i with
  | nil => simp [firstIdx] at h
  | cons x xs ih =>
    by_cases hx : x = c
    · simp [firstIdx, hx] at h
      subst h
      simp [hx]
    · simp [firstIdx, hx] at h
      obtain ⟨i', hi', rfl⟩ := h
      obtain ⟨h1, h2, h3⟩ := ih i' hi'
      refine ⟨by simpa using h1, by simpa using h2, ?_⟩
      intro j hj
      cases j with
      | zero => simpa using hx
      | succ j' =>
        have := h3 j' (by omega)
        simpa using this

theorem indexOfFrom_eq_none_iff (data : List Char) (c : Char) (pos : Nat) :
    indexOfFrom data c pos = none ↔ (data.drop pos).all (· != c) = true := by
  unfold indexOfFrom
  rw [Option.map_eq_none', firstIdx_eq_none_iff, List.all_eq_true]
  constructor
  · intro h x hx
    rw [bne_iff_ne]
    rintro rfl
    exact h hx
  · intro h hc
    have := h c hc
    simp at this

theorem indexOfFrom_some (data : List Char) (c : Char) (pos i : Nat)
    (h : indexOfFrom data c pos = some i) :
    pos ≤ i ∧ i < data.length ∧ data[i]? = some c ∧
      ∀ j, pos ≤ j → j < i → data[j]? ≠ some c := by
  unfold indexOfFrom at h
  obtain ⟨k, hk, rfl⟩ := Option.map_eq_some'.mp h
  obtain ⟨h1, h2, h3⟩ := firstIdx_some c (data.drop pos) k hk
  rw [List.length_drop] at h1
  rw [List.getElem?_drop] at h2
  refine ⟨by omega, by omega, by rwa [Nat.add_comm pos k] at h2, ?_⟩
  intro j hj1 hj2
  have := h3 (j - pos) (by omega)
  rw [List.getElem?_drop] at this
  have hpj : pos + (j - pos) = j := by omega
  rwa [hpj] at this

theorem skipSpaces_ge (data : List Char) (pos : Nat) : pos ≤ skipSpaces data pos :=
  Nat.le_add_right _ _

theorem jsSlice_not_mem (data : List Char) (c : Char) (pos ns : Nat)
    (h : indexOfFrom data c pos = some ns) : c ∉ jsSlice data pos ns := by
  obtain ⟨h1, h2, h3, h4⟩ := indexOfFrom_some data c pos ns h
  intro hmem
  unfold jsSlice at hmem
  rw [List.drop_take] at hmem
  obtain ⟨k, hk, hke⟩ := List.getElem_of_mem hmem
  have hlen : k < ns - pos ∧ k < (data.drop pos).length := by
    rw [List.length_take] at hk
    exact ⟨lt_of_lt_of_le hk (min_le_left ..), lt_of_lt_of_le hk (min_le_right ..)⟩
  have hdk : (data.drop pos).get ⟨k, hlen.2⟩ = c := by
    rw [List.getElem_take] at hke
    exact hke
  have hpk : pos + k < data.length := by
    have hl2 := hlen.2
    rw [List.length_drop] at hl2
    omega
  have hgd : (data.drop pos).get ⟨k, hlen.2⟩ = data.get ⟨pos + k, hpk⟩ :=
    List.getElem_drop ..
  have hsome : data[pos + k]? = some c := by
    rw [List.getElem?_eq_getElem hpk]
    exact congrArg some (hgd.symm.trans hdk)
  exact h4 (pos + k) (by omega) (by omega) hsome

theorem lastIndexOfChar_eq_none_iff (l : List Char) (c : Char) :
    lastIndexOfChar l c = none ↔ c ∉ l := by
  unfold lastIndexOfChar
  rw [Option.map_eq_none', firstIdx_eq_none_iff, List.mem_reverse]

theorem lastIndexOfChar_some (l : List Char) (c : Char) (i : Nat)
    (h : lastIndexOfChar l c = some i) :
    i < l.length ∧ l[i]? = some c ∧ ∀ j, i < j → j < l.length → l[j]? ≠ some c := by
  unfold lastIndexOfChar at h
  obtain ⟨k, hk, rfl⟩ := Option.map_eq_some'.mp h
  obtain ⟨h1, h2, h3⟩ := firstIdx_some c l.reverse k hk
  rw [List.length_reverse] at h1
  have hrev : ∀ m, m < l.length → l.reverse[m]? = l[l.length - 1 - m]? := by
    intro m hm
    rw [List.getElem?_eq_getElem (by simpa using hm),
        List.getElem?_eq_getElem (by omega),
        List.getElem_reverse]
  rw [hrev k h1] at h2
  refine ⟨by omega, h2, ?_⟩
  intro j hj1 hj2 hj3
  have hk' : l.length - 1 - j < k := by omega
  have := h3 (l.length - 1 - j) hk'
  rw [hrev (l.length - 1 - j) (by omega)] at this
  have hjj : l.length - 1 - (l.length - 1 - j) = j := by omega
  rw [hjj] at this
  exact this hj3

/-! ### Lemmas on `splitOnChar` -/

theorem splitOnChar_ne_nil (c : Char) (l : List Char) : splitOnChar c l ≠ [] := by
  cases l with
  | nil => simp [splitOnChar]
  | cons x xs =>
    unfold splitOnChar
    by_cases hx : x = c
    · simp [hx]
    · simp only [hx, if_false]
      cases splitOnChar c xs <;> simp

theorem splitOnChar_headD (c : Char) (l : List Char) :
    (splitOnChar c l).headD [] = l.takeWhile (· != c) := by
  induction l with
  | nil => simp [splitOnChar]
  | cons x xs ih =>
    unfold splitOnChar
    by_cases hx : x = c
    · simp [hx, List.takeWhile_cons]
    · have hbne : (x != c) = true := bne_iff_ne.mpr hx
      simp only [hx, if_false, List.takeWhile_cons, hbne]
      cases hs : splitOnChar c xs with
      | nil => exact absurd hs (splitOnChar_ne_nil c xs)
      | cons y ys =>
        rw [hs] at ih
        simpa using congrArg (x :: ·) ih

theorem splitOnChar_append_cons (c : Char) (k rest : List Char) (hk : c ∉ k) :
    splitOnChar c (k ++ c :: rest) = k :: splitOnChar c rest := by
  induction k with
  | nil => simp [splitOnChar]
  | cons a k' ih =>
    have ha : a ≠ c := fun h => hk (h ▸ List.mem_cons_self a k')
    have hk' : c ∉ k' := fun h => hk (List.mem_cons_of_mem a h)
    rw [List.cons_append]
    unfold splitOnChar
    rw [ih hk']
    simp only [ha, if_false]
    cases rest <;> rfl

/-! ### Lemmas on the lower-casing map -/

theorem jsLowerChar_toNat_of_upper (c : Char) (h : 65 ≤ c.toNat ∧ c.toNat ≤ 90) :
    (jsLowerChar c).toNat = c.toNat + 32 := by
  have hv : (c.toNat + 32).isValidChar := by
    left
    have := h.2
    omega
  simp only [jsLowerChar, h, and_self, if_true]
  simp [Char.ofNat, hv, Char.ofNatAux]
  rfl

theorem jsLowerChar_idem (c : Char) : jsLowerChar (jsLowerChar c) = jsLowerChar c := by
  by_cases h : 65 ≤ c.toNat ∧ c.toNat ≤ 90
  · have ht := jsLowerChar_toNat_of_upper c h
    have hno : ¬ (65 ≤ (jsLowerChar c).toNat ∧ (jsLowerChar c).toNat ≤ 90) := by
      rw [ht]
      omega
    conv_lhs => rw [jsLowerChar]
    rw [if_neg hno]
  · conv_lhs => rw [jsLowerChar]
    simp only [jsLowerChar, h, if_false]

theorem jsLowerChar_eq_hash_iff (c : Char) : jsLowerChar c = '#' ↔ c = '#' := by
  constructor
  · intro h
    by_cases hc : 65 ≤ c.toNat ∧ c.toNat ≤ 90
    · have ht := jsLowerChar_toNat_of_upper c hc
      rw [h] at ht
      have : ('#').toNat = 35 := by decide
      omega
    · simpa [jsLowerChar, hc] using h
  · rintro rfl
    decide

theorem jsToLower_idem (l : List Char) : jsToLower (jsToLower l) = jsToLower l := by
  unfold jsToLower
  rw [List.map_map]
  exact List.map_congr_left (fun c _ => jsLowerChar_idem c)

/-! ### Lemmas on the params loop -/

theorem paramsLoopAux_colon (data : List Char) (fuel pos : Nat) (acc : List (List Char))
    (hf : 0 < fuel) (hc : data[pos]? = some ':') :
    paramsLoopAux data fuel pos acc = acc ++ [data.drop (pos + 1)] := by
  obtain ⟨fuel', rfl⟩ : ∃ f, fuel = f + 1 := ⟨fuel - 1, by omega⟩
  have hlt : pos < data.length := by
    rw [List.getElem?_eq_some] at hc
    exact hc.1
  simp [paramsLoopAux, hlt, hc]

theorem paramsLoopAux_dropLast_no_space (data : List Char) :
    ∀ fuel pos acc, data.length - pos ≤ fuel → (∀ p ∈ acc, ' ' ∉ p) →
      ∀ p ∈ (paramsLoopAux data fuel pos acc).dropLast, ' ' ∉ p := by
  intro fuel
  induction fuel with
  | zero =>
    intro pos acc _ hacc p hp
    exact hacc p ((List.dropLast_sublist _).mem hp)
  | succ fuel ih =>
    intro pos acc hfuel hacc p hp
    rw [paramsLoopAux] at hp
    by_cases hlt : pos < data.length
    · simp only [hlt, if_true] at hp
      by_cases hcol : data[pos]? = some ':'
      · simp only [hcol, if_true] at hp
        rw [List.dropLast_concat] at hp
        exact hacc p hp
      · simp only [hcol, if_false] at hp
        cases hns : indexOfFrom data ' ' pos with
        | none =>
          rw [hns] at hp
          simp only [List.dropLast_concat] at hp
          exact hacc p hp
        | some ns =>
          rw [hns] at hp
          obtain ⟨hns1, hns2, hns3, hns4⟩ := indexOfFrom_some data ' ' pos ns hns
          have hstep : ns + 1 ≤ skipSpaces data (ns + 1) := skipSpaces_ge data (ns + 1)
          refine ih (skipSpaces data (ns + 1)) (acc ++ [jsSlice data pos ns]) (by omega) ?_ p hp
          intro q hq
          rcases List.mem_append.mp hq with hq | hq
          · exact hacc q hq
          · rw [List.mem_singleton.mp hq]
            exact jsSlice_not_mem data ' ' pos ns hns
    · simp only [hlt, if_false] at hp
      exact hacc p ((List.dropLast_sublist _).mem hp)

/-! ### Lemmas on `jsSet` and the badge fold -/

theorem jsSet_mem {β : Type} (m : List (List Char × β)) (k : List Char) (v : β)
    (p : List Char × β) (hp : p ∈ jsSet m k v) : p ∈ m ∨ p = (k, v) := by
  unfold jsSet at hp
  split at hp
  · obtain ⟨q, hq, hqe⟩ := List.mem_map.mp hp
    by_cases hqk : q.1 = k
    · right
      rw [← hqe]
      simp [hqk]
    · left
      rw [← hqe]
      simpa [hqk] using hq
  · simp only [List.mem_append, List.mem_singleton] at hp
    exact hp

theorem badges_foldl_mem (es : List (List Char)) :
    ∀ acc p, p ∈ es.foldl (fun obj badge => jsSet obj (resolveBadge badge).1 (resolveBadge badge).2) acc →
      p ∈ acc ∨ ∃ e ∈ es, p = resolveBadge e := by
  induction es with
  | nil =>
    intro acc p hp
    exact Or.inl hp
  | cons e es ih =>
    intro acc p hp
    rw [List.foldl_cons] at hp
    rcases ih _ p hp with hin | ⟨e', he', rfl⟩
    · rcases jsSet_mem _ _ _ p hin with hin' | hpe
      · exact Or.inl hin'
      · exact Or.inr ⟨e, List.mem_cons_self e es, by rw [hpe]⟩
    · exact Or.inr ⟨e', List.mem_cons_of_mem e he', rfl⟩

/-! ### Lemmas on `jsParseInt` -/

theorem digitVal?_base10_none (c : Char) (h : ¬ (48 ≤ c.toNat ∧ c.toNat ≤ 57)) :
    digitVal? 10 c = none := by
  unfold digitVal?
  by_cases h1 : 48 ≤ c.toNat ∧ c.toNat ≤ 57
  · exact absurd h1 h
  · simp only [h1, if_false]
    by_cases h2 : 97 ≤ c.toNat ∧ c.toNat ≤ 102
    · simp only [h2, if_true]
      have : ¬ (c.toNat - 87 < 10) := by omega
      simp [this]
    · simp only [h2, if_false]
      by_cases h3 : 65 ≤ c.toNat ∧ c.toNat ≤ 70
      · simp only [h3, if_true]
        have : ¬ (c.toNat - 55 < 10) := by omega
        simp [this]
      · simp [h3]

theorem jsParseInt_none_of_not_numericStart (l : List Char)
    (h : numericStart l = false) : jsParseInt l = none := by
  unfold numericStart at h
  simp only [jsParseInt]
  cases hl2 : (signSplit (List.dropWhile jsWhitespace l)).2 with
  | nil =>
    simp [baseSplit]
  | cons c cs =>
    rw [hl2] at h
    simp only [decide_eq_false_iff_not] at h
    have hc0 : c ≠ '0' := by
      rintro rfl
      exact h (by decide)
    have hbase : baseSplit (c :: cs) = (10, c :: cs) := by
      unfold baseSplit
      split
      · rename_i r heq
        injection heq with h1 h2
        exact absurd h1 hc0
      · rename_i r heq
        injection heq with h1 h2
        exact absurd h1 hc0
      · rfl
    have hd : digitVal? 10 c = none := digitVal?_base10_none c h
    rw [hbase]
    simp [List.takeWhile_cons, hd]

/-! ### Failure characterization of the `unpack` stages -/

theorem parseTags_eq_none_iff (data : List Char) :
    parseTags data = none ↔ (data[0]? = some '@' ∧ indexOfFrom data ' ' 0 = none) := by
  unfold parseTags
  by_cases h : data[0]? = some '@'
  · simp only [h, if_true]
    cases hns : indexOfFrom data ' ' 0 <;> simp [h, hns]
  · simp [h]

theorem parseOrigin_eq_none_iff (data : List Char) (pos : Nat) :
    parseOrigin data pos = none ↔ (data[pos]? = some ':' ∧ indexOfFrom data ' ' pos = none) := by
  unfold parseOrigin
  by_cases h : data[pos]? = some ':'
  · simp only [h, if_true]
    cases hns : indexOfFrom data ' ' pos <;> simp [h, hns]
  · simp [h]

theorem noSpaceFrom_iff (data : List Char) (pos : Nat) :
    indexOfFrom data ' ' pos = none ↔ noSpaceFrom data pos = true := by
  rw [indexOfFrom_eq_none_iff]
  exact Iff.rfl

/-- Claim C5 (amended): `unpack` never raises (it is a total function) and
returns the single undifferentiated malformed sentinel `null` (`none`)
exactly when one of the three failure conditions holds — unterminated tag
block, unterminated origin (the JS `prefix`), or missing command — and a
parsed message on every other input. The cause itself is not carried in
the result (see the C5 counterexample). -/
theorem unpack_eq_none_iff (data : List Char) :
    unpack data = none ↔
      (untermTagBlock data = true ∨ untermOrigin data = true ∨ missingCommand data = true) := by
  unfold unpack untermTagBlock untermOrigin missingCommand afterOriginPos afterTagsPos
  cases hpt : parseTags data with
  | none =>
    obtain ⟨h1, h2⟩ := (parseTags_eq_none_iff data).mp hpt
    simp [h1, (noSpaceFrom_iff data 0).mp h2]
  | some tp =>
    obtain ⟨tags, pos1⟩ := tp
    have htb : (decide (data[0]? = some '@') && noSpaceFrom data 0) = false := by
      by_cases ha : data[0]? = some '@'
      · by_cases hb : noSpaceFrom data 0 = true
        · exfalso
          have : parseTags data = none :=
            (parseTags_eq_none_iff data).mpr ⟨ha, (noSpaceFrom_iff data 0).mpr hb⟩
          rw [this] at hpt
          cases hpt
        · simp [Bool.eq_false_iff.mpr hb]
      · simp [ha]
    cases hpo : parseOrigin data pos1 with
    | none =>
      obtain ⟨g1, g2⟩ := (parseOrigin_eq_none_iff data pos1).mp hpo
      simp [hpo, htb, g1, (noSpaceFrom_iff data pos1).mp g2]
    | some op =>
      obtain ⟨pfx, pos2⟩ := op
      have hto : (decide (data[pos1]? = some ':') && noSpaceFrom data pos1) = false := by
        by_cases ha : data[pos1]? = some ':'
        · by_cases hb : noSpaceFrom data pos1 = true
          · exfalso
            have : parseOrigin data pos1 = none :=
              (parseOrigin_eq_none_iff data pos1).mpr ⟨ha, (noSpaceFrom_iff data pos1).mpr hb⟩
            rw [this] at hpo
            cases hpo
          · simp [Bool.eq_false_iff.mpr hb]
        · simp [ha]
      cases hns : indexOfFrom data ' ' pos2 with
      | none =>
        by_cases hlen : pos2 < data.length
        · simp [hpo, hns, htb, hto, hlen, (noSpaceFrom_iff data pos2).mp hns, Nat.not_le.mpr hlen]
        · simp [hpo, hns, htb, hto, hlen, (noSpaceFrom_iff data pos2).mp hns, Nat.not_lt.mp hlen]
      | some ns =>
        have : indexOfFrom data ' ' pos2 ≠ none := by
          rw [hns]
          exact Option.some_ne_none ns
        have hnsf : noSpaceFrom data pos2 = false := by
          by_cases hb : noSpaceFrom data pos2 = true
          · exact absurd ((noSpaceFrom_iff data pos2).mpr hb) this
          · exact Bool.eq_false_iff.mpr hb
        simp [hpo, hns, htb, hto, hnsf]

/-! ### Helper facts on `splitLine` -/

theorem splitLine_eq_of_none (s : List Char) (n : Nat) (hn : 0 < n)
    (h : lastIndexOfChar (s.take n) ' ' = none) :
    splitLine s n = (s.take (n - 1), s.drop n) := by
  unfold splitLine
  rw [h]
  have h1 : ((n : Int) - 1).toNat = n - 1 := by omega
  have h2 : ((n : Int) - 1 + 1).toNat = n := by omega
  simp only []
  rw [h1, h2]

theorem splitLine_eq_of_some (s : List Char) (n i : Nat)
    (h : lastIndexOfChar (s.take n) ' ' = some i) :
    splitLine s n = (s.take i, s.drop (i + 1)) := by
  unfold splitLine
  rw [h]
  have h1 : ((i : Int)).toNat = i := by omega
  have h2 : ((i : Int) + 1).toNat = i + 1 := by omega
  simp only []
  rw [h1, h2]

/-! ### Claim theorems -/

/-- Claim C1, counterexample: the spec claims `splitLine(s, limit) = (s, "")`
whenever `s.length ≤ limit`, but the code has no length guard: for the
3-character input `"a b"` and limit `10` it still splits at the last
space and returns `("a", "b")`, not `("a b", "")`. -/
theorem splitLine_short_counterexample :
    splitLine ['a', ' ', 'b'] 10 ≠ (['a', ' ', 'b'], []) := by decide

/-- Claim C1 (amended): for every space-free string `s` and limit `n > 0` with
`s.length < n`, `splitLine s n` returns the whole string as head and an
empty tail. (With a space present, or with `s.length = n`, the code
splits or drops a character even for short inputs.) -/
theorem splitLine_short_no_space (s : List Char) (n : Nat) (h0 : 0 < n)
    (h1 : s.length < n) (h2 : ' ' ∉ s) : splitLine s n = (s, []) := by
  have hnone : lastIndexOfChar (s.take n) ' ' = none :=
    (lastIndexOfChar_eq_none_iff _ _).mpr (fun hm => h2 (List.mem_of_mem_take hm))
  rw [splitLine_eq_of_none s n h0 hnone]
  rw [List.take_of_length_le (by omega), List.drop_eq_nil_of_le (by omega)]

/-- Witness for C1's amended theorem at the concrete input `"abc"`, `4`. -/
theorem splitLine_short_no_space_app : splitLine ['a', 'b', 'c'] 4 = (['a', 'b', 'c'], []) :=
  splitLine_short_no_space ['a', 'b', 'c'] 4 (by decide) (by decide) (by decide)

/-- Claim C10: when the last space inside the first `n` characters of `s` sits
at index 0 (and `s` is longer than the limit), the head is empty and the
tail is everything after that space: the sendable head is not guaranteed
non-empty. -/
theorem splitLine_leading_space (s : List Char) (n : Nat) (h1 : n < s.length)
    (h2 : lastIndexOfChar (s.take n) ' ' = some 0) :
    splitLine s n = ([], s.drop 1) := by
  rw [splitLine_eq_of_some s n 0 h2]
  rfl

/-- Witness for C10's theorem at the concrete input `" abc"`, `3`. -/
theorem splitLine_leading_space_app :
    splitLine [' ', 'a', 'b', 'c'] 3 = ([], ['a', 'b', 'c']) :=
  splitLine_leading_space [' ', 'a', 'b', 'c'] 3 (by decide) (by decide)

/-- Claim C6, counterexample: the spec claims `head.length = n - 1` exactly
whenever the first-`n`-characters window holds no space, but for the
2-character space-free input `"ab"` with `n = 9` the head is `"ab"` of
length 2, not 8. -/
theorem splitLine_hardcut_counterexample :
    lastIndexOfChar (List.take 9 ['a', 'b']) ' ' = none ∧
      (splitLine ['a', 'b'] 9).1.length ≠ 9 - 1 := by decide

/-- Claim C6 (amended): for `n > 0`, `splitLine s n` returns a head of length
`≤ n`; when a space was the split point, `head ++ " " ++ tail` gives back
the original string (the split removed exactly that one space); and when
no space exists in the window and additionally `n - 1 ≤ s.length`, the
head length is exactly `n - 1`. -/
theorem splitLine_spec (s : List Char) (n : Nat) (hn : 0 < n) :
    (splitLine s n).1.length ≤ n ∧
      (∀ i, lastIndexOfChar (s.take n) ' ' = some i →
        (splitLine s n).1 ++ ' ' :: (splitLine s n).2 = s) ∧
      (lastIndexOfChar (s.take n) ' ' = none → n - 1 ≤ s.length →
        (splitLine s n).1.length = n - 1) := by
  cases h : lastIndexOfChar (s.take n) ' ' with
  | none =>
    rw [splitLine_eq_of_none s n hn h]
    refine ⟨?_, ?_, ?_⟩
    · rw [List.length_take]
      omega
    · simp
    · intro _ hlen
      rw [List.length_take]
      omega
  | some i =>
    obtain ⟨hi1, hi2, _⟩ := lastIndexOfChar_some (s.take n) ' ' i h
    rw [List.length_take] at hi1
    have hin : i < n := lt_of_lt_of_le hi1 (min_le_left ..)
    have his : i < s.length := lt_of_lt_of_le hi1 (min_le_right ..)
    have hsi : s[i]? = some ' ' := by
      rw [List.getElem?_take] at hi2
      simpa [hin] using hi2
    rw [splitLine_eq_of_some s n i h]
    refine ⟨?_, ?_, ?_⟩
    · rw [List.length_take]
      omega
    · intro i' hi'
      injection hi' with hii
      subst hii
      have hsig : s.get ⟨i, his⟩ = ' ' := by
        have hg := List.getElem?_eq_getElem his
        rw [hsi] at hg
        exact (Option.some_injective _ hg).symm
      have hdrop : s.drop i = s.get ⟨i, his⟩ :: s.drop (i + 1) := List.drop_eq_getElem_cons his
      conv_rhs => rw [← List.take_append_drop i s, hdrop, hsig]
    · intro hcon
      simp at hcon

/-- Witness for C6's amended theorem: the reconstruction clause at the
spec's own example `splitLine("aaaa bbbb cccccccc", 9)`. -/
theorem splitLine_spec_app :
    (splitLine ("aaaa bbbb cccccccc".data) 9).1 ++ ' ' ::
      (splitLine ("aaaa bbbb cccccccc".data) 9).2 = "aaaa bbbb cccccccc".data :=
  (splitLine_spec ("aaaa bbbb cccccccc".data) 9 (by decide)).2.1 4 (by decide)

/-- Claim C2, counterexample: `properUsername` is not idempotent. On `"##a"` a
single application strips one `#` and yields `"#a"`, a second application
strips the next `#` and yields `"a"`. -/
theorem properUsername_not_idempotent :
    properUsername (properUsername ['#', '#', 'a']) ≠ properUsername ['#', '#', 'a'] := by
  decide

/-- Claim C2 (amended): `properChannel` is idempotent for every string, and
`properUsername` is idempotent for every string that does not start with
two `#` characters (on `"##…"` inputs each application strips one `#`). -/
theorem canonicalizers_idem :
    (∀ s : List Char, properChannel (properChannel s) = properChannel s) ∧
      (∀ s : List Char, s.take 2 ≠ ['#', '#'] →
        properUsername (properUsername s) = properUsername s) := by
  constructor
  · intro s
    unfold properChannel
    by_cases h : (jsToLower s).head? = some '#'
    · simp only [h, if_true, jsToLower_idem, h, if_true]
    · simp only [h, if_false]
      have hmap : jsToLower ('#' :: jsToLower s) = '#' :: jsToLower s := by
        unfold jsToLower
        rw [List.map_cons]
        have h1 : jsLowerChar '#' = '#' := by decide
        have h2 : List.map jsLowerChar (List.map jsLowerChar s) = List.map jsLowerChar s :=
          jsToLower_idem s
        rw [h1, h2]
      rw [hmap]
      simp
  · intro s hs
    unfold properUsername
    simp only []
    by_cases h : (jsToLower s).head? = some '#'
    · simp only [h, if_true]
      cases s with
      | nil => simp [jsToLower] at h
      | cons a s' =>
        have ha : a = '#' := by
          unfold jsToLower at h
          rw [List.map_cons, List.head?_cons, Option.some_inj] at h
          exact (jsLowerChar_eq_hash_iff a).mp h
        subst ha
        have hs' : s'.head? ≠ some '#' := by
          intro hcon
          apply hs
          cases s' with
          | nil => cases hcon
          | cons b s'' =>
            rw [List.head?_cons, Option.some_inj] at hcon
            subst hcon
            rfl
        have htail : (jsToLower ('#' :: s')).tail = jsToLower s' := by
          unfold jsToLower
          rw [List.map_cons]
          rfl
        rw [htail]
        have hhead : (jsToLower s').head? ≠ some '#' := by
          intro hcon
          apply hs'
          cases s'' : s' with
          | nil => rw [s''] at hcon; simp [jsToLower] at hcon
          | cons b t =>
            rw [s''] at hcon
            unfold jsToLower at hcon
            rw [List.map_cons, List.head?_cons, Option.some_inj] at hcon
            rw [List.head?_cons, Option.some_inj]
            exact (jsLowerChar_eq_hash_iff b).mp hcon
        rw [jsToLower_idem]
        simp [hhead]
    · simp only [h, if_false]
      rw [jsToLower_idem]
      simp [h]

/-- Witness for C2's amended theorem at the concrete inputs `"A"` and
`"Ab"`. -/
theorem canonicalizers_idem_app :
    properChannel (properChannel ['A']) = properChannel ['A'] ∧
      properUsername (properUsername ['A', 'b']) = properUsername ['A', 'b'] :=
  ⟨canonicalizers_idem.1 ['A'], canonicalizers_idem.2 ['A', 'b'] (by decide)⟩

/-- Claim C3, counterexample: the spec claims the tag entry is split once on
`=` with everything after the first `=` as the value, so `"key=a=b"`
should give value `"a=b"`; the code's `split('=')` splits at every `=`
and stores only the second piece, giving value `"a"`. -/
theorem tag_value_counterexample :
    Option.map IrcMessage.tags (unpack ['@', 'k', 'e', 'y', '=', 'a', '=', 'b', ' ', 'c'])
        = some [(['k', 'e', 'y'], TagValue.text ['a'])] ∧
      TagValue.text ['a'] ≠ TagValue.text ['a', '=', 'b'] := by decide

/-- Claim C3 (amended): each tag entry is split at every `=`: the key is the
text before the first `=`, and the value is the text between the first
and the second `=` when that segment is non-empty (so for `"key=a=b"`
the value is `"a"`), otherwise the boolean sentinel `true`. -/
theorem tagPair_second_segment (k rest : List Char) (hk : '=' ∉ k) :
    tagPair (k ++ '=' :: rest) =
      (k, if rest.takeWhile (· != '=') = [] then TagValue.flag
          else TagValue.text (rest.takeWhile (· != '='))) := by
  unfold tagPair
  rw [splitOnChar_append_cons '=' k rest hk]
  simp only []
  have hL := splitOnChar_ne_nil '=' rest
  cases hL2 : splitOnChar '=' rest with
  | nil => exact absurd hL2 hL
  | cons y ys =>
    have hy : y = rest.takeWhile (· != '=') := by
      have hh := splitOnChar_headD '=' rest
      rw [hL2] at hh
      simpa using hh
    subst hy
    simp [tagValueOf, List.isEmpty_iff]

/-- Witness for C3's amended theorem at the concrete entry `"key=a=b"`. -/
theorem tagPair_second_segment_app :
    tagPair ['k', 'e', 'y', '=', 'a', '=', 'b'] = (['k', 'e', 'y'], TagValue.text ['a']) :=
  tagPair_second_segment ['k', 'e', 'y'] ['a', '=', 'b'] (by decide)

/-- Claim C4: on every line `unpack` accepts, each parameter except possibly
the last contains no space; and whenever the params loop meets a `:` at
the cursor (at any iteration, i.e. for any accumulator), it appends the
whole remainder after the colon verbatim as one final parameter and
stops, so a colon-introduced parameter is always last. -/
theorem unpack_params_shape :
    (∀ (data : List Char) (m : IrcMessage), unpack data = some m →
      ∀ p ∈ m.params.dropLast, ' ' ∉ p) ∧
      (∀ (data : List Char) (fuel pos : Nat) (acc : List (List Char)),
        0 < fuel → data[pos]? = some ':' →
        paramsLoopAux data fuel pos acc = acc ++ [data.drop (pos + 1)]) := by
  constructor
  · intro data m hm p hp
    unfold unpack at hm
    split at hm
    · cases hm
    · split at hm
      · cases hm
      · split at hm
        · split at hm
          · injection hm with hm'
            subst hm'
            simp at hp
          · cases hm
        · injection hm with hm'
          subst hm'
          rename_i ns hns
          exact paramsLoopAux_dropLast_no_space data
            (data.length - skipSpaces data (ns + 1)) (skipSpaces data (ns + 1)) []
            le_rfl (by simp) p hp
  · intro data fuel pos acc hf hc
    exact paramsLoopAux_colon data fuel pos acc hf hc

/-- Witness for C4's theorem: the non-final parameter `"#bar"` of
`"PRIVMSG #bar :hi there"` is space-free, and a colon at the loop cursor
appends the remainder and stops. -/
theorem unpack_params_shape_app :
    (' ' ∉ (['#', 'b', 'a', 'r'] : List Char)) ∧
      paramsLoopAux [':', 'a', ' ', 'b'] 1 0 [] = [] ++ [['a', ' ', 'b']] :=
  ⟨unpack_params_shape.1 "PRIVMSG #bar :hi there".data
      { raw := "PRIVMSG #bar :hi there".data, tags := [], origin := none,
        command := some "PRIVMSG".data,
        params := [['#', 'b', 'a', 'r'], ['h', 'i', ' ', 't', 'h', 'e', 'r', 'e']] }
      (by decide) ['#', 'b', 'a', 'r'] (by decide),
    unpack_params_shape.2 [':', 'a', ' ', 'b'] 1 0 [] (by decide) (by decide)⟩

/-- Claim C5, counterexample: the malformed result carries no distinguishable
cause. `"@x"` fails with an unterminated tag block while `":x"` fails
with an unterminated origin, yet both return the very same bare `null`
(`none`), so the two causes cannot be told apart from the result. -/
theorem malformed_cause_not_carried :
    untermTagBlock ['@', 'x'] = true ∧ untermOrigin ['@', 'x'] = false ∧
      untermTagBlock [':', 'x'] = false ∧ untermOrigin [':', 'x'] = true ∧
      unpack ['@', 'x'] = unpack [':', 'x'] ∧ unpack ['@', 'x'] = none := by decide

/-- Claim C7, counterexample: `badgesResolver` on the empty string does not
yield an empty map. -/
theorem badgesResolver_empty_not_nil : badgesResolver [] ≠ [] := by decide

/-- Claim C7 (amended): `badgesResolver` on the empty string yields a map with
exactly one entry, keyed by the empty string, whose level is the
not-a-number sentinel (`parseInt(undefined)`). -/
theorem badgesResolver_empty : badgesResolver [] = [([], (none : Option Int))] := by decide

/-- Claim C8: `badgesResolver` is total by construction and never fails: every
entry of the produced map is `resolveBadge` of one comma-separated entry
of the input, and the level resolved for an entry is the not-a-number
sentinel (`none`) — not an error — whenever the text after the first `/`
is absent, or does not start with a decimal digit after the optional
whitespace and sign (non-numeric). -/
theorem badges_total_sentinel :
    (∀ (s : List Char) (p : List Char × Option Int), p ∈ badgesResolver s →
      ∃ e ∈ splitOnChar ',' s, p = resolveBadge e) ∧
      (∀ e : List Char, ((splitOnChar '/' e)[1]? = none ∨
          numericStart (((splitOnChar '/' e)[1]?).getD []) = false) →
        (resolveBadge e).2 = none) := by
  constructor
  · intro s p hp
    rcases badges_foldl_mem (splitOnChar ',' s) [] p hp with hin | hex
    · simp at hin
    · exact hex
  · intro e he
    unfold resolveBadge
    simp only []
    rcases he with h1 | h2
    · rw [h1]
      rfl
    · cases hx : (splitOnChar '/' e)[1]? with
      | none => rfl
      | some t =>
        rw [hx] at h2
        simp only [Option.getD_some] at h2
        exact jsParseInt_none_of_not_numericStart t h2

/-- Witness for C8's theorem: the entry `"subscriber/12"` resolves from
its own split, and the slash-free entry `"premium"` gets the sentinel. -/
theorem badges_total_sentinel_app :
    (∃ e ∈ splitOnChar ',' "subscriber/12".data,
      (("subscriber".data, (some 12 : Option Int)) : List Char × Option Int) = resolveBadge e) ∧
      (resolveBadge "premium".data).2 = none :=
  ⟨badges_total_sentinel.1 "subscriber/12".data ("subscriber".data, some 12) (by decide),
    badges_total_sentinel.2 "premium".data (Or.inl (by decide))⟩

/-- Claim C9: when the params loop meets a `:` that is the line's final
character, it appends the empty string: a trailing parameter may be
empty, and concretely `unpack "PING :"` succeeds with `params = [""]`. -/
theorem trailing_colon_empty :
    (∀ (data : List Char) (pos : Nat), pos + 1 = data.length → data[pos]? = some ':' →
      paramsLoop data pos = [[]]) ∧
      unpack "PING :".data = some { raw := "PING :".data,
                                    tags := [],
                                    origin := none,
                                    command := some "PING".data,
                                    params := [[]] } := by
  constructor
  · intro data pos hlen hc
    unfold paramsLoop
    rw [paramsLoopAux_colon data (data.length - pos) pos [] (by omega) hc]
    rw [List.nil_append, hlen, List.drop_length]
  · decide

/-- Witness for C9's theorem at the concrete line `"PING :"` and loop
cursor 5, the position of its final `:`. -/
theorem trailing_colon_empty_app : paramsLoop "PING :".data 5 = [[]] :=
  trailing_colon_empty.1 "PING :".data 5 (by decide) (by decide)
